import Mathlib

/-!
Shallow embedding of `src/resampleService.js` (webtask-resample-service).

The service resamples a date-keyed numeric time series to a coarser
calendar frequency: `validateParams` checks the two option strings,
`cleanTimeSeries` parses dates and rejects NaN values, `applyFrequency`
maps every date to its period-end and formats it back to `YYYY-MM-DD`,
and `applyFunction` groups values by that key string and reduces each
group with `min`, `max` or `sum`.  JavaScript exceptions are modelled
with `Except ResampleError`; JavaScript numbers are modelled as `JSNum`
(a finite rational, `Infinity`, `-Infinity`, or `NaN`); the JavaScript
object used for grouping is modelled as an association list in key
insertion order (its keys are `YYYY-MM-DD` strings, which are not array
indices, so `for..in` iterates them in insertion order).
-/

/-- Calendar date, as produced by the date parser (year/month/day, month
`1`..`12`). -/
structure CalDate where
  year : Nat
  month : Nat
  day : Nat
deriving DecidableEq, Repr

/-- Gregorian leap-year rule, as used by the date library. -/
def isLeapYear (y : Nat) : Bool :=
  (y % 4 == 0 && y % 100 != 0) || y % 400 == 0

/-- Number of days in month `m` (1-based) of year `y`. -/
def daysInMonth (y m : Nat) : Nat :=
  if m = 2 then (if isLeapYear y then 29 else 28)
  else if m = 4 ∨ m = 6 ∨ m = 9 ∨ m = 11 then 30
  else 31

/-- Models `dateFns.parse` (date-fns v1) on plain calendar-date strings:
a `YYYY-MM-DD` string parses iff the month is `01`..`12` and the day is
`01`..`daysInMonth`; anything else yields `none`, i.e. the JavaScript
`Invalid Date` that `cleanTimeSeries` tests for. -/
def parse (s : String) : Option CalDate :=
  match s.data with
  | [y1, y2, y3, y4, h1, m1, m2, h2, d1, d2] =>
    if y1.isDigit && y2.isDigit && y3.isDigit && y4.isDigit &&
        h1 == '-' && m1.isDigit && m2.isDigit && h2 == '-' &&
        d1.isDigit && d2.isDigit then
      let year := 1000 * (y1.toNat - 48) + 100 * (y2.toNat - 48) +
        10 * (y3.toNat - 48) + (y4.toNat - 48)
      let month := 10 * (m1.toNat - 48) + (m2.toNat - 48)
      let day := 10 * (d1.toNat - 48) + (d2.toNat - 48)
      if 1 ≤ month ∧ month ≤ 12 ∧ 1 ≤ day ∧ day ≤ daysInMonth year month then
        some ⟨year, month, day⟩
      else none
    else none
  | _ => none

/-- Left-pad the decimal representation of `n` with zeros to width `w`. -/
def padZero (w n : Nat) : String :=
  let s := toString n
  String.mk (List.replicate (w - s.length) '0') ++ s

/-- Models `dateFns.format(date, 'YYYY-MM-DD')`. -/
def formatDate (d : CalDate) : String :=
  padZero 4 d.year ++ "-" ++ padZero 2 d.month ++ "-" ++ padZero 2 d.day

/-- Day of week of a date, `0` = Sunday .. `6` = Saturday (JavaScript
`Date.getDay`), by Zeller's congruence. -/
def dayOfWeek (d : CalDate) : Nat :=
  let m := if d.month ≤ 2 then d.month + 12 else d.month
  let y := if d.month ≤ 2 then d.year - 1 else d.year
  let k := y % 100
  let j := y / 100
  let h := (d.day + (13 * (m + 1)) / 5 + k + k / 4 + j / 4 + 5 * j) % 7
  (h + 6) % 7

/-- The calendar day after `d`. -/
def nextDay (d : CalDate) : CalDate :=
  if d.day < daysInMonth d.year d.month then ⟨d.year, d.month, d.day + 1⟩
  else if d.month < 12 then ⟨d.year, d.month + 1, 1⟩
  else ⟨d.year + 1, 1, 1⟩

/-- `d` plus `n` calendar days. -/
def addDays (d : CalDate) : Nat → CalDate
  | 0 => d
  | n + 1 => nextDay (addDays d n)

/-- Models `dateFns.lastDayOfMonth`. -/
def lastDayOfMonth (d : CalDate) : CalDate :=
  ⟨d.year, d.month, daysInMonth d.year d.month⟩

/-- Models `dateFns.lastDayOfWeek` with the default week start (Sunday):
the Saturday on or after `d`. -/
def lastDayOfWeek (d : CalDate) : CalDate :=
  addDays d (6 - dayOfWeek d)

/-- Models `dateFns.lastDayOfQuarter`. -/
def lastDayOfQuarter (d : CalDate) : CalDate :=
  let qm := ((d.month - 1) / 3) * 3 + 3
  ⟨d.year, qm, daysInMonth d.year qm⟩

/-- Models `dateFns.lastDayOfYear`. -/
def lastDayOfYear (d : CalDate) : CalDate :=
  ⟨d.year, 12, 31⟩

/-- JavaScript number: a finite value (modelled as a rational),
`Infinity`, `-Infinity`, or `NaN`.  Series values are JSON numbers, so
this is the value domain of the service. -/
inductive JSNum where
  | num (q : ℚ)
  | posInf
  | negInf
  | nan
deriving DecidableEq, Repr

/-- JavaScript `isNaN` on a number. -/
def jsIsNaN : JSNum → Bool
  | .nan => true
  | _ => false

/-- Whether a `JSNum` is a finite number (not `NaN`, not `±Infinity`). -/
def JSNum.isFinite : JSNum → Bool
  | .num _ => true
  | _ => false

/-- JavaScript `Math.min` on two numbers (`NaN` absorbs). -/
def jsMin : JSNum → JSNum → JSNum
  | .nan, _ => .nan
  | _, .nan => .nan
  | .negInf, _ => .negInf
  | _, .negInf => .negInf
  | .posInf, b => b
  | a, .posInf => a
  | .num a, .num b => .num (min a b)

/-- JavaScript `Math.max` on two numbers (`NaN` absorbs). -/
def jsMax : JSNum → JSNum → JSNum
  | .nan, _ => .nan
  | _, .nan => .nan
  | .posInf, _ => .posInf
  | _, .posInf => .posInf
  | .negInf, b => b
  | a, .negInf => a
  | .num a, .num b => .num (max a b)

/-- JavaScript `+` on two numbers (`NaN` absorbs,
`Infinity + -Infinity = NaN`), with the finite case taken as exact
rational addition.  Real JavaScript `+` rounds each finite result to the
nearest binary64 double; `jsAddDouble` below models that rounding, and
the order-independence of summation holds only for the exact version. -/
def jsAdd : JSNum → JSNum → JSNum
  | .nan, _ => .nan
  | _, .nan => .nan
  | .posInf, .negInf => .nan
  | .negInf, .posInf => .nan
  | .posInf, _ => .posInf
  | _, .posInf => .posInf
  | .negInf, _ => .negInf
  | _, .negInf => .negInf
  | .num a, .num b => .num (a + b)

/-- The exceptions the service can throw, plus the two TypeErrors the
dispatch can raise (calling a missing table entry; `reduce` of an empty
array with no initial value). -/
inductive ResampleError where
  | invalidFrequencyParam
  | invalidFunctionParam
  | invalidDate (raw : String)
  | invalidValue (raw : JSNum)
  | notAFunction
  | emptyReduce
deriving DecidableEq, Repr

/-- The query-string options record: `resampleFrequency` and
`resampleFunction`, each possibly `undefined`. -/
structure ResampleParams where
  resampleFrequency : Option String
  resampleFunction : Option String
deriving DecidableEq, Repr

/-- `FREQUENCY_OPTION_METHOD_INDEX` (lines 24-29): maps a frequency
option string to the date-fns period-end method; `none` models both a
missing key and an `undefined` option. -/
def FREQUENCY_OPTION_METHOD_INDEX : Option String → Option (CalDate → CalDate)
  | none => none
  | some k =>
    if k = "monthEnd" then some lastDayOfMonth
    else if k = "weekEnd" then some lastDayOfWeek
    else if k = "quarterEnd" then some lastDayOfQuarter
    else if k = "yearEnd" then some lastDayOfYear
    else none

/-- JavaScript `Array.prototype.reduce` with no initial value: throws a
TypeError on an empty array, otherwise folds from the left starting at
the first element. -/
def reduce1 (f : JSNum → JSNum → JSNum) : List JSNum → Except ResampleError JSNum
  | [] => .error .emptyReduce
  | v :: rest => .ok (rest.foldl f v)

/-- `FUNCTION_OPTION_METHOD_INDEX` (lines 31-41): maps an aggregation
option string to its reducer: `min`/`max` reduce with no initial value,
`sum` reduces with initial value `0`. -/
def FUNCTION_OPTION_METHOD_INDEX :
    Option String → Option (List JSNum → Except ResampleError JSNum)
  | none => none
  | some k =>
    if k = "min" then some (reduce1 jsMin)
    else if k = "max" then some (reduce1 jsMax)
    else if k = "sum" then some (fun values => .ok (values.foldl jsAdd (.num 0)))
    else none

/-- `validateParams` (lines 48-61): the frequency option must be present
and a key of the frequency table, then the function option must be
present and a key of the function table. -/
def validateParams (params : ResampleParams) : Except ResampleError Unit :=
  if params.resampleFrequency.isNone ||
      (FREQUENCY_OPTION_METHOD_INDEX params.resampleFrequency).isNone then
    .error .invalidFrequencyParam
  else if params.resampleFunction.isNone ||
      (FUNCTION_OPTION_METHOD_INDEX params.resampleFunction).isNone then
    .error .invalidFunctionParam
  else .ok ()

/-- `cleanTimeSeries` (lines 69-90): for each entry in order, parse the
date text (throw `Invalid date` if unparsable), then throw
`Invalid value` if `isNaN(value)`; the value itself is pushed through
unchanged. -/
def cleanTimeSeries :
    List (String × JSNum) → Except ResampleError (List (CalDate × JSNum))
  | [] => .ok []
  | (dateRaw, value) :: rest =>
    match parse dateRaw with
    | none => .error (.invalidDate dateRaw)
    | some date =>
      if jsIsNaN value then .error (.invalidValue value)
      else do
        let tail ← cleanTimeSeries rest
        .ok ((date, value) :: tail)

/-- `applyFrequency` (lines 96-110): map each date to its period end via
the frequency table and format it back to a `YYYY-MM-DD` string.  The
table lookup happens inside the loop, so an unknown key only raises a
TypeError when the series is non-empty. -/
def applyFrequency (resampleFrequency : Option String) :
    List (CalDate × JSNum) → Except ResampleError (List (String × JSNum))
  | [] => .ok []
  | (date, value) :: rest =>
    match FREQUENCY_OPTION_METHOD_INDEX resampleFrequency with
    | none => .error .notAFunction
    | some changeFrequencyMethod => do
      let tail ← applyFrequency resampleFrequency rest
      .ok ((formatDate (changeFrequencyMethod date), value) :: tail)

/-- One step of the grouping loop of `applyFunction` (lines 121-132):
if the key is already present append the value to its group, otherwise
add a new singleton group at the end (JavaScript insertion order). -/
def insertGroup (groups : List (String × List JSNum)) (key : String)
    (value : JSNum) : List (String × List JSNum) :=
  if groups.any (fun g => g.1 == key) then
    groups.map (fun g => if g.1 == key then (g.1, g.2 ++ [value]) else g)
  else groups ++ [(key, [value])]

/-- The grouping pass of `applyFunction`: fold the series into an
association list keyed by the period string. -/
def buildGroups (timeseries : List (String × JSNum)) : List (String × List JSNum) :=
  timeseries.foldl (fun gs p => insertGroup gs p.1 p.2) []

/-- The reduction pass of `applyFunction` (lines 136-142): for each
group in key order, look the reducer up and apply it to the group's
values. -/
def aggregateGroups (resampleFunction : Option String) :
    List (String × List JSNum) → Except ResampleError (List (String × JSNum))
  | [] => .ok []
  | (dateKey, valueGroup) :: rest =>
    match FUNCTION_OPTION_METHOD_INDEX resampleFunction with
    | none => .error .notAFunction
    | some resampleFunctionMethod => do
      let resampledValue ← resampleFunctionMethod valueGroup
      let tail ← aggregateGroups resampleFunction rest
      .ok ((dateKey, resampledValue) :: tail)

/-- `applyFunction` (lines 117-145): group values sharing a period key,
then reduce each group with the chosen aggregation function. -/
def applyFunction (resampleFunction : Option String)
    (timeseries : List (String × JSNum)) :
    Except ResampleError (List (String × JSNum)) :=
  aggregateGroups resampleFunction (buildGroups timeseries)

/-- `service.resample` (lines 157-168), the only public method: validate
the options, clean the series, resample dates to the chosen frequency,
then aggregate per period. -/
def resample (timeseries : List (String × JSNum))
    (resampleParams : ResampleParams) :
    Except ResampleError (List (String × JSNum)) := do
  validateParams resampleParams
  let cleanedSeries ← cleanTimeSeries timeseries
  let newFrequencyTimeSeries ←
    applyFrequency resampleParams.resampleFrequency cleanedSeries
  applyFunction resampleParams.resampleFunction newFrequencyTimeSeries

deriving instance DecidableEq for Except

/-- Specification-side view of one step of `cleanTimeSeries` on an entry
that passes both checks (the date parses, the default is irrelevant). -/
def cleanElem (x : String × JSNum) : CalDate × JSNum :=
  ((parse x.1).getD ⟨0, 0, 0⟩, x.2)

/-- Specification-side view of the values the grouping pass collects for
the key `k`: the values of the entries of `l` whose key is `k`, in input
order. -/
def valuesFor (l : List (String × JSNum)) (k : String) : List JSNum :=
  (l.filter (fun p => p.1 == k)).map Prod.snd

/-- The values stored in an association list of groups under key `k`
(first entry with that key), or `[]` if absent. -/
def groupVals (gs : List (String × List JSNum)) (k : String) : List JSNum :=
  match gs with
  | [] => []
  | g :: rest => if g.1 == k then g.2 else groupVals rest k

/-- Total version of `reduce1`: the value `reduce1` returns on a
non-empty list (the choice on `[]` is irrelevant). -/
def red1D (f : JSNum → JSNum → JSNum) : List JSNum → JSNum
  | [] => .nan
  | v :: rest => rest.foldl f v

/-! ### IEEE-754 binary64 refinement of the `sum` reducer

`jsAdd` is exact rational addition; JavaScript `+` on numbers instead
rounds every intermediate result to the nearest binary64 double.  For
`min`/`max` this difference is invisible (`Math.min`/`Math.max` return
one of their arguments unchanged), but for `sum` it makes the fold
order-sensitive.  The following definitions model that rounding and a
variant of the pipeline whose `sum` reducer adds doubles. -/

/-- Round a rational to the nearest integer, ties to even. -/
def roundNearestEven (x : ℚ) : ℤ :=
  if x - ⌊x⌋ < 1/2 then ⌊x⌋
  else if 1/2 < x - ⌊x⌋ then ⌊x⌋ + 1
  else if 2 ∣ ⌊x⌋ then ⌊x⌋ else ⌊x⌋ + 1

/-- Binary64 exponent of a non-zero rational: the power of two of its
binade, clamped below at `-1022` (the subnormal range shares the ulp
`2 ^ (-1074)`). -/
def dExp (q : ℚ) : ℤ := max (Int.log 2 |q|) (-1022)

/-- Round a rational to the nearest IEEE-754 binary64 value (ties to
even), with an unbounded exponent above: the last unit in place of a
non-zero `q` is `2 ^ (dExp q - 52)`.  Overflow to infinity is handled by
the caller (`doubleOf`). -/
def roundDouble (q : ℚ) : ℚ :=
  if q = 0 then 0
  else (2 : ℚ) ^ (dExp q - 52) *
    ((roundNearestEven (q / (2 : ℚ) ^ (dExp q - 52)) : ℤ) : ℚ)

/-- The double produced by an exact rational result: round to nearest,
overflowing to `±Infinity` when the rounded magnitude reaches
`2 ^ 1024`. -/
def doubleOf (q : ℚ) : JSNum :=
  if (2 : ℚ) ^ (1024 : ℤ) ≤ |roundDouble q| then
    (if 0 < q then .posInf else .negInf)
  else .num (roundDouble q)

/-- JavaScript `+` on binary64 numbers: as `jsAdd` on the special
values, and exact addition followed by binary64 rounding on finite
values. -/
def jsAddDouble : JSNum → JSNum → JSNum
  | .nan, _ => .nan
  | _, .nan => .nan
  | .posInf, .negInf => .nan
  | .negInf, .posInf => .nan
  | .posInf, _ => .posInf
  | _, .posInf => .posInf
  | .negInf, _ => .negInf
  | _, .negInf => .negInf
  | .num a, .num b => doubleOf (a + b)

/-- `FUNCTION_OPTION_METHOD_INDEX` with the `sum` reducer adding
binary64 doubles (`jsAddDouble`) instead of exact rationals; `min` and
`max` are unchanged since they return one of their arguments. -/
def FUNCTION_OPTION_METHOD_INDEX_DOUBLE :
    Option String → Option (List JSNum → Except ResampleError JSNum)
  | none => none
  | some k =>
    if k = "min" then some (reduce1 jsMin)
    else if k = "max" then some (reduce1 jsMax)
    else if k = "sum" then
      some (fun values => .ok (values.foldl jsAddDouble (.num 0)))
    else none

/-- `validateParams` over the binary64 function table (same keys). -/
def validateParamsDouble (params : ResampleParams) : Except ResampleError Unit :=
  if params.resampleFrequency.isNone ||
      (FREQUENCY_OPTION_METHOD_INDEX params.resampleFrequency).isNone then
    .error .invalidFrequencyParam
  else if params.resampleFunction.isNone ||
      (FUNCTION_OPTION_METHOD_INDEX_DOUBLE params.resampleFunction).isNone then
    .error .invalidFunctionParam
  else .ok ()

/-- The reduction pass of `applyFunction` over the binary64 table. -/
def aggregateGroupsDouble (resampleFunction : Option String) :
    List (String × List JSNum) → Except ResampleError (List (String × JSNum))
  | [] => .ok []
  | (dateKey, valueGroup) :: rest =>
    match FUNCTION_OPTION_METHOD_INDEX_DOUBLE resampleFunction with
    | none => .error .notAFunction
    | some resampleFunctionMethod => do
      let resampledValue ← resampleFunctionMethod valueGroup
      let tail ← aggregateGroupsDouble resampleFunction rest
      .ok ((dateKey, resampledValue) :: tail)

/-- `applyFunction` over the binary64 table. -/
def applyFunctionDouble (resampleFunction : Option String)
    (timeseries : List (String × JSNum)) :
    Except ResampleError (List (String × JSNum)) :=
  aggregateGroupsDouble resampleFunction (buildGroups timeseries)

/-- `service.resample` with the `sum` reducer adding binary64 doubles:
the same pipeline as `resample`, differing only in the arithmetic of
`+`, which in the source rounds after every addition. -/
def resampleDouble (timeseries : List (String × JSNum))
    (resampleParams : ResampleParams) :
    Except ResampleError (List (String × JSNum)) := do
  validateParamsDouble resampleParams
  let cleanedSeries ← cleanTimeSeries timeseries
  let newFrequencyTimeSeries ←
    applyFrequency resampleParams.resampleFrequency cleanedSeries
  applyFunctionDouble resampleParams.resampleFunction newFrequencyTimeSeries

/-! ## Algebraic facts about the JavaScript number operations -/

theorem jsAdd_zero_left (b : JSNum) : jsAdd (.num 0) b = b := by
  cases b <;> simp [jsAdd]

theorem jsMin_posInf_left (b : JSNum) : jsMin .posInf b = b := by
  cases b <;> rfl

theorem jsMax_negInf_left (b : JSNum) : jsMax .negInf b = b := by
  cases b <;> rfl

theorem jsAdd_right_comm (z x y : JSNum) :
    jsAdd (jsAdd z x) y = jsAdd (jsAdd z y) x := by
  cases z <;> cases x <;> cases y <;> simp [jsAdd, add_right_comm]

theorem jsMin_right_comm (z x y : JSNum) :
    jsMin (jsMin z x) y = jsMin (jsMin z y) x := by
  cases z <;> cases x <;> cases y <;>
    simp [jsMin, min_assoc, min_comm, min_left_comm]

theorem jsMax_right_comm (z x y : JSNum) :
    jsMax (jsMax z x) y = jsMax (jsMax z y) x := by
  cases z <;> cases x <;> cases y <;>
    simp [jsMax, max_assoc, max_comm, max_left_comm]

/-! ## Parameter validation -/

theorem validateParams_ok (params : ResampleParams)
    (h : validateParams params = .ok ()) :
    (FREQUENCY_OPTION_METHOD_INDEX params.resampleFrequency).isSome = true ∧
    (FUNCTION_OPTION_METHOD_INDEX params.resampleFunction).isSome = true := by
  unfold validateParams at h
  split at h
  · exact absurd h (by simp)
  · split at h
    · exact absurd h (by simp)
    · rename_i h1 h2
      simp only [Bool.or_eq_true, Option.isNone_iff_eq_none, not_or] at h1 h2
      constructor
      · rcases hf : FREQUENCY_OPTION_METHOD_INDEX params.resampleFrequency with _ | m
        · exact absurd hf h1.2
        · rfl
      · rcases hf : FUNCTION_OPTION_METHOD_INDEX params.resampleFunction with _ | m
        · exact absurd hf h2.2
        · rfl

theorem validateParams_ok_of (params : ResampleParams)
    (h1 : (FREQUENCY_OPTION_METHOD_INDEX params.resampleFrequency).isSome = true)
    (h2 : (FUNCTION_OPTION_METHOD_INDEX params.resampleFunction).isSome = true) :
    validateParams params = .ok () := by
  have hf : params.resampleFrequency.isNone = false := by
    rcases hp : params.resampleFrequency with _ | s
    · rw [hp] at h1; simp [FREQUENCY_OPTION_METHOD_INDEX] at h1
    · rfl
  have hfn : params.resampleFunction.isNone = false := by
    rcases hp : params.resampleFunction with _ | s
    · rw [hp] at h2; simp [FUNCTION_OPTION_METHOD_INDEX] at h2
    · rfl
  have e1 : (FREQUENCY_OPTION_METHOD_INDEX params.resampleFrequency).isNone = false := by
    rcases hx : FREQUENCY_OPTION_METHOD_INDEX params.resampleFrequency with _ | m
    · rw [hx] at h1; exact absurd h1 (by simp)
    · rfl
  have e2 : (FUNCTION_OPTION_METHOD_INDEX params.resampleFunction).isNone = false := by
    rcases hx : FUNCTION_OPTION_METHOD_INDEX params.resampleFunction with _ | m
    · rw [hx] at h2; exact absurd h2 (by simp)
    · rfl
  unfold validateParams
  rw [hf, e1, hfn, e2]
  simp

theorem FUNCTION_index_cases (fn : Option String)
    (m : List JSNum → Except ResampleError JSNum)
    (h : FUNCTION_OPTION_METHOD_INDEX fn = some m) :
    (fn = some "min" ∧ m = reduce1 jsMin) ∨
    (fn = some "max" ∧ m = reduce1 jsMax) ∨
    (fn = some "sum" ∧ m = fun values => .ok (values.foldl jsAdd (.num 0))) := by
  rcases fn with _ | k
  · simp [FUNCTION_OPTION_METHOD_INDEX] at h
  · simp only [FUNCTION_OPTION_METHOD_INDEX] at h
    split_ifs at h with h1 h2 h3
    · subst h1; exact Or.inl ⟨rfl, (Option.some_inj.mp h).symm⟩
    · subst h2; exact Or.inr (Or.inl ⟨rfl, (Option.some_inj.mp h).symm⟩)
    · subst h3; exact Or.inr (Or.inr ⟨rfl, (Option.some_inj.mp h).symm⟩)

/-! ## Reduction lemmas for the `Except` monad -/

theorem except_bind_ok {α β : Type} (a : α) (f : α → Except ResampleError β) :
    (Except.ok a : Except ResampleError α) >>= f = f a := rfl

theorem except_bind_error {α β : Type} (e : ResampleError)
    (f : α → Except ResampleError β) :
    (Except.error e : Except ResampleError α) >>= f = Except.error e := rfl

/-! ## The series normalizer -/

theorem cleanTimeSeries_ok_iff (ts : List (String × JSNum))
    (out : List (CalDate × JSNum)) :
    cleanTimeSeries ts = .ok out ↔
      (∀ x ∈ ts, (parse x.1).isSome = true ∧ jsIsNaN x.2 = false) ∧
        out = ts.map cleanElem := by
  induction ts generalizing out with
  | nil =>
    constructor
    · intro h
      have h2 : (Except.ok [] : Except ResampleError (List (CalDate × JSNum))) =
          .ok out := h
      exact ⟨(by intro x hx; cases hx), (Except.ok.inj h2).symm⟩
    · rintro ⟨-, rfl⟩; rfl
  | cons hd tl ih =>
    obtain ⟨s, v⟩ := hd
    rcases hp : parse s with _ | d
    · simp [cleanTimeSeries, hp]
    · rcases hn : jsIsNaN v with _ | _
      · rcases hc : cleanTimeSeries tl with e | o
        · simp only [cleanTimeSeries, hp, hn, Bool.false_eq_true, if_false, hc,
            except_bind_error]
          constructor
          · intro h; cases h
          · rintro ⟨hall, rfl⟩
            have h3 : cleanTimeSeries tl = .ok (tl.map cleanElem) :=
              (ih (tl.map cleanElem)).mpr
                ⟨fun x hx => hall x (List.mem_cons_of_mem _ hx), rfl⟩
            rw [hc] at h3; cases h3
        · simp only [cleanTimeSeries, hp, hn, Bool.false_eq_true, if_false, hc,
            except_bind_ok]
          obtain ⟨hall, ho⟩ := (ih o).mp hc
          constructor
          · intro h
            have hout : (d, v) :: o = out := Except.ok.inj h
            subst hout
            refine ⟨?_, ?_⟩
            · intro x hx
              rcases List.mem_cons.mp hx with rfl | hx2
              · exact ⟨by rw [hp]; rfl, hn⟩
              · exact hall x hx2
            · simp [cleanElem, hp, ho]
          · rintro ⟨hall2, rfl⟩
            simp [cleanElem, hp, ho]
      · simp [cleanTimeSeries, hp, hn]

theorem cleanTimeSeries_append (pre : List (String × JSNum))
    (pre2 : List (CalDate × JSNum)) (rest : List (String × JSNum))
    (h : cleanTimeSeries pre = .ok pre2) :
    cleanTimeSeries (pre ++ rest) =
      (cleanTimeSeries rest).map (fun r => pre2 ++ r) := by
  induction pre generalizing pre2 with
  | nil =>
    have h0 : pre2 = [] := (Except.ok.inj h).symm
    subst h0
    simp only [List.nil_append]
    cases cleanTimeSeries rest <;> rfl
  | cons hd tl ih =>
    obtain ⟨s, v⟩ := hd
    rcases hp : parse s with _ | d
    · rw [cleanTimeSeries, hp] at h; cases h
    · rcases hn : jsIsNaN v with _ | _
      · rcases hc : cleanTimeSeries tl with e | o
        · rw [cleanTimeSeries, hp] at h
          simp only [hn, Bool.false_eq_true, if_false, hc, except_bind_error] at h
          cases h
        · rw [cleanTimeSeries, hp] at h
          simp only [hn, Bool.false_eq_true, if_false, hc, except_bind_ok] at h
          have hout : (d, v) :: o = pre2 := Except.ok.inj h
          subst hout
          have hih := ih o hc
          rw [List.cons_append, cleanTimeSeries, hp]
          simp only [hn, Bool.false_eq_true, if_false, hih]
          cases cleanTimeSeries rest <;> rfl
      · rw [cleanTimeSeries, hp] at h
        simp [hn] at h

/-! ## The frequency pass -/

theorem applyFrequency_ok (rf : Option String) (m : CalDate → CalDate)
    (h : FREQUENCY_OPTION_METHOD_INDEX rf = some m)
    (l : List (CalDate × JSNum)) :
    applyFrequency rf l = .ok (l.map (fun p => (formatDate (m p.1), p.2))) := by
  induction l with
  | nil => rfl
  | cons hd tl ih =>
    obtain ⟨d, v⟩ := hd
    rw [applyFrequency, h]
    simp only [ih, except_bind_ok, List.map_cons]

/-! ## Unfolding the public pipeline -/

theorem resample_validate_error (ts : List (String × JSNum))
    (params : ResampleParams) (e : ResampleError)
    (h : validateParams params = .error e) :
    resample ts params = .error e := by
  rw [resample, h]; rfl

theorem resample_clean_error (ts : List (String × JSNum))
    (params : ResampleParams) (e : ResampleError)
    (hv : validateParams params = .ok ())
    (hc : cleanTimeSeries ts = .error e) :
    resample ts params = .error e := by
  rw [resample, hv, hc]; rfl

theorem resample_steps (ts : List (String × JSNum)) (params : ResampleParams)
    (cleaned : List (CalDate × JSNum)) (mapped : List (String × JSNum))
    (hv : validateParams params = .ok ())
    (hc : cleanTimeSeries ts = .ok cleaned)
    (hf : applyFrequency params.resampleFrequency cleaned = .ok mapped) :
    resample ts params = applyFunction params.resampleFunction mapped := by
  rw [resample, hv, hc]
  simp only [except_bind_ok, hf]

/-! ## The aggregation pass -/

theorem reduce1_ok (f : JSNum → JSNum → JSNum) (vs : List JSNum) (h : vs ≠ []) :
    reduce1 f vs = .ok (red1D f vs) := by
  cases vs with
  | nil => exact absurd rfl h
  | cons v rest => rfl

theorem aggregateGroups_ok (rfn : Option String)
    (meth : List JSNum → Except ResampleError JSNum)
    (methD : List JSNum → JSNum)
    (hm : FUNCTION_OPTION_METHOD_INDEX rfn = some meth)
    (hd : ∀ vs : List JSNum, vs ≠ [] → meth vs = .ok (methD vs))
    (gs : List (String × List JSNum)) (hne : ∀ g ∈ gs, g.2 ≠ []) :
    aggregateGroups rfn gs = .ok (gs.map (fun g => (g.1, methD g.2))) := by
  induction gs with
  | nil => rfl
  | cons g gs ih =>
    obtain ⟨k, vs⟩ := g
    have h1 : meth vs = .ok (methD vs) := hd vs (hne (k, vs) (by simp))
    have h2 := ih (fun g hg => hne g (List.mem_cons_of_mem _ hg))
    rw [aggregateGroups, hm]
    simp only [h1, except_bind_ok, h2, List.map_cons]

/-! ## The grouping pass -/

theorem map_fst_update (gs : List (String × List JSNum)) (k : String) (v : JSNum) :
    (gs.map (fun g => if g.1 == k then (g.1, g.2 ++ [v]) else g)).map Prod.fst =
      gs.map Prod.fst := by
  induction gs with
  | nil => rfl
  | cons g gs ih =>
    have hfst : (if g.1 == k then (g.1, g.2 ++ [v]) else g).1 = g.1 := by
      by_cases h : (g.1 == k) = true <;> simp [h]
    simp only [List.map_cons, hfst, ih]

theorem any_key_iff (gs : List (String × List JSNum)) (k : String) :
    (gs.any (fun g => g.1 == k) = true) ↔ k ∈ gs.map Prod.fst := by
  constructor
  · intro h
    rcases List.any_eq_true.mp h with ⟨g, hg, he⟩
    exact List.mem_map.mpr ⟨g, hg, eq_of_beq he⟩
  · intro h
    rcases List.mem_map.mp h with ⟨g, hg, hfst⟩
    exact List.any_eq_true.mpr ⟨g, hg, by simp [hfst]⟩

theorem insertGroup_fst (gs : List (String × List JSNum)) (k : String) (v : JSNum) :
    (insertGroup gs k v).map Prod.fst =
      if k ∈ gs.map Prod.fst then gs.map Prod.fst else gs.map Prod.fst ++ [k] := by
  unfold insertGroup
  by_cases h : k ∈ gs.map Prod.fst
  · rw [if_pos ((any_key_iff gs k).mpr h), if_pos h, map_fst_update]
  · rw [if_neg (fun hh => h ((any_key_iff gs k).mp hh)), if_neg h, List.map_append]
    rfl

theorem insertGroup_nodup (gs : List (String × List JSNum)) (k : String)
    (v : JSNum) (h : (gs.map Prod.fst).Nodup) :
    ((insertGroup gs k v).map Prod.fst).Nodup := by
  rw [insertGroup_fst]
  by_cases hm : k ∈ gs.map Prod.fst
  · rw [if_pos hm]; exact h
  · rw [if_neg hm, List.nodup_append]
    exact ⟨h, List.nodup_singleton _,
      fun a ha hb => hm ((List.mem_singleton.mp hb) ▸ ha)⟩

theorem insertGroup_mem_fst (gs : List (String × List JSNum)) (k : String)
    (v : JSNum) (k2 : String) :
    k2 ∈ (insertGroup gs k v).map Prod.fst ↔
      k2 ∈ gs.map Prod.fst ∨ k2 = k := by
  rw [insertGroup_fst]
  by_cases hm : k ∈ gs.map Prod.fst
  · rw [if_pos hm]
    constructor
    · exact Or.inl
    · rintro (h | rfl)
      · exact h
      · exact hm
  · rw [if_neg hm]; simp

theorem groupVals_update_ne (k : String) (v : JSNum) (k2 : String) (h : k2 ≠ k)
    (gs : List (String × List JSNum)) :
    groupVals (gs.map (fun g => if g.1 == k then (g.1, g.2 ++ [v]) else g)) k2 =
      groupVals gs k2 := by
  induction gs with
  | nil => rfl
  | cons g gs ih =>
    by_cases h1 : g.1 = k
    · have hb1 : (g.1 == k) = true := by simp [h1]
      have hb2 : (g.1 == k2) = false :=
        beq_eq_false_iff_ne.mpr (fun he => h ((h1.symm.trans he).symm))
      simp only [List.map_cons, groupVals, hb1, if_true, hb2,
        Bool.false_eq_true, if_false]
      exact ih
    · have hb1 : (g.1 == k) = false := beq_eq_false_iff_ne.mpr h1
      by_cases h3 : g.1 = k2
      · have hb2 : (g.1 == k2) = true := by simp [h3]
        simp only [List.map_cons, groupVals, hb1, Bool.false_eq_true, if_false,
          hb2, if_true]
      · have hb2 : (g.1 == k2) = false := beq_eq_false_iff_ne.mpr h3
        simp only [List.map_cons, groupVals, hb1, Bool.false_eq_true, if_false,
          hb2]
        exact ih

theorem groupVals_update_self (k : String) (v : JSNum)
    (gs : List (String × List JSNum)) (h : k ∈ gs.map Prod.fst) :
    groupVals (gs.map (fun g => if g.1 == k then (g.1, g.2 ++ [v]) else g)) k =
      groupVals gs k ++ [v] := by
  induction gs with
  | nil => cases h
  | cons g gs ih =>
    by_cases h1 : g.1 = k
    · have hb1 : (g.1 == k) = true := by simp [h1]
      simp [List.map_cons, groupVals, hb1]
    · have hb1 : (g.1 == k) = false := beq_eq_false_iff_ne.mpr h1
      have hm : k ∈ gs.map Prod.fst := by
        rcases List.mem_map.mp h with ⟨p, hp, hfst⟩
        rcases List.mem_cons.mp hp with rfl | hp2
        · exact absurd hfst h1
        · exact List.mem_map.mpr ⟨p, hp2, hfst⟩
      simp only [List.map_cons, groupVals, hb1, Bool.false_eq_true, if_false]
      exact ih hm

theorem groupVals_eq_nil_of_not_mem (gs : List (String × List JSNum))
    (k : String) (h : k ∉ gs.map Prod.fst) : groupVals gs k = [] := by
  induction gs with
  | nil => rfl
  | cons g gs ih =>
    have h1 : g.1 ≠ k := fun he => h (by simp [he])
    have h2 : k ∉ gs.map Prod.fst := fun hm => h (by simp [hm])
    have hb : (g.1 == k) = false := beq_eq_false_iff_ne.mpr h1
    simp [groupVals, hb, ih h2]

theorem groupVals_append_one (gs : List (String × List JSNum)) (k : String)
    (v : JSNum) (k2 : String) (hk : k ∉ gs.map Prod.fst) :
    groupVals (gs ++ [(k, [v])]) k2 =
      if k2 = k then groupVals gs k2 ++ [v] else groupVals gs k2 := by
  induction gs with
  | nil =>
    by_cases h : k2 = k
    · subst h
      simp [groupVals]
    · have hbe : (k == k2) = false := beq_eq_false_iff_ne.mpr (fun he => h he.symm)
      simp [groupVals, hbe, h]
  | cons g gs ih =>
    have hk2 : k ∉ gs.map Prod.fst := fun hm => hk (by simp [hm])
    have hg1 : g.1 ≠ k := fun he => hk (by simp [he])
    by_cases h3 : g.1 = k2
    · have hbe : (g.1 == k2) = true := by simp [h3]
      have hne : ¬k2 = k := fun he => hg1 (h3.trans he)
      simp [List.cons_append, groupVals, hbe, hne]
    · have hbe : (g.1 == k2) = false := beq_eq_false_iff_ne.mpr h3
      simp [List.cons_append, groupVals, hbe, ih hk2]

theorem groupVals_insertGroup (gs : List (String × List JSNum)) (k : String)
    (v : JSNum) (k2 : String) :
    groupVals (insertGroup gs k v) k2 =
      if k2 = k then groupVals gs k ++ [v] else groupVals gs k2 := by
  unfold insertGroup
  by_cases h : gs.any (fun g => g.1 == k) = true
  · rw [if_pos h]
    by_cases h2 : k2 = k
    · rw [if_pos h2, h2, groupVals_update_self k v gs ((any_key_iff gs k).mp h)]
    · rw [if_neg h2, groupVals_update_ne k v k2 h2]
  · rw [if_neg h]
    have hknot : k ∉ gs.map Prod.fst := fun hm => h ((any_key_iff gs k).mpr hm)
    rw [groupVals_append_one gs k v k2 hknot]
    by_cases h2 : k2 = k
    · rw [if_pos h2, if_pos h2, h2]
    · rw [if_neg h2, if_neg h2]

theorem foldl_insertGroup_vals (l : List (String × JSNum)) :
    ∀ (gs : List (String × List JSNum)) (k2 : String),
      groupVals (l.foldl (fun acc p => insertGroup acc p.1 p.2) gs) k2 =
        groupVals gs k2 ++ valuesFor l k2 := by
  induction l with
  | nil => intro gs k2; simp [valuesFor]
  | cons p l ih =>
    intro gs k2
    obtain ⟨k, v⟩ := p
    rw [List.foldl_cons, ih, groupVals_insertGroup]
    unfold valuesFor
    by_cases h : k2 = k
    · subst h
      have hbe : (k2 == k2) = true := by simp
      simp [List.filter_cons, hbe]
    · have hbe : (k == k2) = false := beq_eq_false_iff_ne.mpr (fun he => h he.symm)
      simp [List.filter_cons, hbe, h]

theorem foldl_insertGroup_mem (l : List (String × JSNum)) :
    ∀ (gs : List (String × List JSNum)) (k2 : String),
      k2 ∈ (l.foldl (fun acc p => insertGroup acc p.1 p.2) gs).map Prod.fst ↔
        k2 ∈ gs.map Prod.fst ∨ k2 ∈ l.map Prod.fst := by
  induction l with
  | nil => intro gs k2; simp
  | cons p l ih =>
    intro gs k2
    obtain ⟨k, v⟩ := p
    rw [List.foldl_cons, ih, insertGroup_mem_fst]
    simp only [List.map_cons, List.mem_cons]
    tauto

theorem foldl_insertGroup_nodup (l : List (String × JSNum)) :
    ∀ gs : List (String × List JSNum), (gs.map Prod.fst).Nodup →
      ((l.foldl (fun acc p => insertGroup acc p.1 p.2) gs).map Prod.fst).Nodup := by
  induction l with
  | nil => intro gs h; exact h
  | cons p l ih =>
    intro gs h
    rw [List.foldl_cons]
    exact ih _ (insertGroup_nodup gs p.1 p.2 h)

theorem buildGroups_vals (l : List (String × JSNum)) (k : String) :
    groupVals (buildGroups l) k = valuesFor l k := by
  unfold buildGroups
  rw [foldl_insertGroup_vals]
  rfl

theorem buildGroups_mem_fst (l : List (String × JSNum)) (k : String) :
    k ∈ (buildGroups l).map Prod.fst ↔ k ∈ l.map Prod.fst := by
  unfold buildGroups
  rw [foldl_insertGroup_mem]
  simp

theorem buildGroups_nodup (l : List (String × JSNum)) :
    ((buildGroups l).map Prod.fst).Nodup := by
  unfold buildGroups
  exact foldl_insertGroup_nodup l [] (by simp)

theorem groupVals_of_mem (gs : List (String × List JSNum))
    (g : String × List JSNum) (hnd : (gs.map Prod.fst).Nodup) (hg : g ∈ gs) :
    groupVals gs g.1 = g.2 := by
  induction gs with
  | nil => cases hg
  | cons h0 t ih =>
    rcases List.mem_cons.mp hg with rfl | hg2
    · simp [groupVals]
    · have hnotin : h0.1 ∉ t.map Prod.fst := (List.nodup_cons.mp (by simpa using hnd)).1
      have hne : h0.1 ≠ g.1 := by
        intro he
        exact hnotin (he ▸ List.mem_map.mpr ⟨g, hg2, rfl⟩)
      have hbe : (h0.1 == g.1) = false := beq_eq_false_iff_ne.mpr hne
      simp only [groupVals, hbe, Bool.false_eq_true, if_false]
      exact ih (List.nodup_cons.mp (by simpa using hnd)).2 hg2

theorem mem_of_mem_fst (gs : List (String × List JSNum)) (k : String)
    (h : k ∈ gs.map Prod.fst) : (k, groupVals gs k) ∈ gs := by
  induction gs with
  | nil => simp at h
  | cons g t ih =>
    by_cases he : g.1 = k
    · have hbe : (g.1 == k) = true := by simp [he]
      simp only [groupVals, hbe, if_true]
      exact List.mem_cons.mpr (Or.inl (by rw [← he]))
    · have hbe : (g.1 == k) = false := beq_eq_false_iff_ne.mpr he
      have hm : k ∈ t.map Prod.fst := by
        rcases List.mem_map.mp h with ⟨p, hp, hfst⟩
        rcases List.mem_cons.mp hp with rfl | hp2
        · exact absurd hfst he
        · exact List.mem_map.mpr ⟨p, hp2, hfst⟩
      simp only [groupVals, hbe, Bool.false_eq_true, if_false]
      exact List.mem_cons.mpr (Or.inr (ih hm))

theorem mem_buildGroups (l : List (String × JSNum)) (g : String × List JSNum) :
    g ∈ buildGroups l ↔ g.1 ∈ l.map Prod.fst ∧ g.2 = valuesFor l g.1 := by
  constructor
  · intro hg
    have h1 : g.1 ∈ (buildGroups l).map Prod.fst := List.mem_map.mpr ⟨g, hg, rfl⟩
    refine ⟨(buildGroups_mem_fst l g.1).mp h1, ?_⟩
    rw [← buildGroups_vals l g.1, groupVals_of_mem _ g (buildGroups_nodup l) hg]
  · rintro ⟨h1, h2⟩
    have h3 : g.1 ∈ (buildGroups l).map Prod.fst :=
      (buildGroups_mem_fst l g.1).mpr h1
    have h4 := mem_of_mem_fst _ _ h3
    rw [buildGroups_vals] at h4
    have h5 : g = (g.1, valuesFor l g.1) := by
      rw [← h2]
    rw [h5]
    exact h4

theorem buildGroups_vals_ne_nil (l : List (String × JSNum))
    (g : String × List JSNum) (hg : g ∈ buildGroups l) : g.2 ≠ [] := by
  obtain ⟨h1, h2⟩ := (mem_buildGroups l g).mp hg
  rw [h2]
  rcases List.mem_map.mp h1 with ⟨p, hp, hfst⟩
  intro hnil
  unfold valuesFor at hnil
  have hmem : p ∈ l.filter (fun q => q.1 == g.1) :=
    List.mem_filter.mpr ⟨hp, by simp [hfst]⟩
  rw [List.map_eq_nil_iff] at hnil
  rw [hnil] at hmem
  cases hmem

theorem buildGroups_length (l : List (String × JSNum)) :
    (buildGroups l).length = (l.map Prod.fst).toFinset.card := by
  have h1 : (buildGroups l).length = ((buildGroups l).map Prod.fst).length :=
    (List.length_map _ _).symm
  rw [h1, ← List.toFinset_card_of_nodup (buildGroups_nodup l)]
  congr 1
  ext k
  rw [List.mem_toFinset, List.mem_toFinset]
  exact buildGroups_mem_fst l k

/-! ## Permutation invariance of the aggregation -/

theorem red1D_eq_foldl (f : JSNum → JSNum → JSNum) (e : JSNum)
    (he : ∀ b, f e b = b) (vs : List JSNum) (h : vs ≠ []) :
    red1D f vs = vs.foldl f e := by
  cases vs with
  | nil => exact absurd rfl h
  | cons v rest => simp [red1D, List.foldl_cons, he]

theorem red1D_perm (f : JSNum → JSNum → JSNum) (e : JSNum)
    (he : ∀ b, f e b = b)
    (comm : ∀ z x y, f (f z x) y = f (f z y) x)
    (vs vs2 : List JSNum) (hp : vs.Perm vs2) (hne : vs ≠ []) :
    red1D f vs = red1D f vs2 := by
  have hne2 : vs2 ≠ [] := by
    intro h0
    rw [h0] at hp
    exact hne hp.eq_nil
  rw [red1D_eq_foldl f e he vs hne, red1D_eq_foldl f e he vs2 hne2]
  exact hp.foldl_eq' (fun x _ y _ z => comm z x y) e

theorem foldl_jsAdd_perm (vs vs2 : List JSNum) (hp : vs.Perm vs2) :
    vs.foldl jsAdd (.num 0) = vs2.foldl jsAdd (.num 0) :=
  hp.foldl_eq' (fun x _ y _ z => jsAdd_right_comm z x y) (.num 0)

theorem valuesFor_perm (l l2 : List (String × JSNum)) (hp : l2.Perm l)
    (k : String) : (valuesFor l2 k).Perm (valuesFor l k) := by
  unfold valuesFor
  exact (hp.filter _).map _

theorem valuesFor_ne_nil (l : List (String × JSNum)) (k : String)
    (h : k ∈ l.map Prod.fst) : valuesFor l k ≠ [] := by
  rcases List.mem_map.mp h with ⟨p, hp, hfst⟩
  intro hnil
  unfold valuesFor at hnil
  have hmem : p ∈ l.filter (fun q => q.1 == k) :=
    List.mem_filter.mpr ⟨hp, by simp [hfst]⟩
  rw [List.map_eq_nil_iff] at hnil
  rw [hnil] at hmem
  cases hmem

theorem mem_out_iff (l : List (String × JSNum)) (methD : List JSNum → JSNum)
    (x : String × JSNum) :
    x ∈ (buildGroups l).map (fun g => (g.1, methD g.2)) ↔
      ∃ k, k ∈ l.map Prod.fst ∧ x = (k, methD (valuesFor l k)) := by
  rw [List.mem_map]
  constructor
  · rintro ⟨g, hg, rfl⟩
    obtain ⟨hk, hv⟩ := (mem_buildGroups l g).mp hg
    exact ⟨g.1, hk, by rw [hv]⟩
  · rintro ⟨k, hk, rfl⟩
    exact ⟨(k, valuesFor l k), (mem_buildGroups l _).mpr ⟨hk, rfl⟩, rfl⟩

theorem out_toFinset_subset (l l2 : List (String × JSNum)) (hp : l2.Perm l)
    (methD : List JSNum → JSNum)
    (hinv : ∀ vs vs2 : List JSNum, vs.Perm vs2 → vs ≠ [] → methD vs = methD vs2)
    (x : String × JSNum)
    (hx : x ∈ (buildGroups l2).map (fun g => (g.1, methD g.2))) :
    x ∈ (buildGroups l).map (fun g => (g.1, methD g.2)) := by
  rcases (mem_out_iff l2 methD x).mp hx with ⟨k, hk, rfl⟩
  have hk2 : k ∈ l.map Prod.fst := (hp.map Prod.fst).mem_iff.mp hk
  have hv : (valuesFor l2 k).Perm (valuesFor l k) := valuesFor_perm l l2 hp k
  have hne : valuesFor l2 k ≠ [] := valuesFor_ne_nil l2 k hk
  exact (mem_out_iff l methD _).mpr
    ⟨k, hk2, by rw [hinv _ _ hv hne]⟩

theorem out_toFinset_eq (l l2 : List (String × JSNum)) (hp : l2.Perm l)
    (methD : List JSNum → JSNum)
    (hinv : ∀ vs vs2 : List JSNum, vs.Perm vs2 → vs ≠ [] → methD vs = methD vs2) :
    ((buildGroups l2).map (fun g => (g.1, methD g.2))).toFinset =
      ((buildGroups l).map (fun g => (g.1, methD g.2))).toFinset := by
  ext x
  rw [List.mem_toFinset, List.mem_toFinset]
  constructor
  · exact out_toFinset_subset l l2 hp methD hinv x
  · exact out_toFinset_subset l2 l hp.symm methD hinv x

/-! ## Success and failure of the aggregation dispatch -/

theorem applyFunction_ok_of_valid (rfn : Option String)
    (meth : List JSNum → Except ResampleError JSNum)
    (hm : FUNCTION_OPTION_METHOD_INDEX rfn = some meth) :
    ∃ methD : List JSNum → JSNum,
      (∀ l : List (String × JSNum),
        applyFunction rfn l =
          .ok ((buildGroups l).map (fun g => (g.1, methD g.2)))) ∧
      (∀ vs vs2 : List JSNum, vs.Perm vs2 → vs ≠ [] → methD vs = methD vs2) ∧
      (∀ v : JSNum, methD [v] = v) := by
  rcases FUNCTION_index_cases rfn meth hm with ⟨hs, hmm⟩ | ⟨hs, hmm⟩ | ⟨hs, hmm⟩
  · refine ⟨red1D jsMin, ?_, ?_, ?_⟩
    · intro l
      exact aggregateGroups_ok rfn meth (red1D jsMin) hm
        (fun vs hne => by rw [hmm]; exact reduce1_ok jsMin vs hne)
        (buildGroups l) (fun g hg => buildGroups_vals_ne_nil l g hg)
    · exact fun vs vs2 hp hne =>
        red1D_perm jsMin .posInf jsMin_posInf_left jsMin_right_comm vs vs2 hp hne
    · intro v; rfl
  · refine ⟨red1D jsMax, ?_, ?_, ?_⟩
    · intro l
      exact aggregateGroups_ok rfn meth (red1D jsMax) hm
        (fun vs hne => by rw [hmm]; exact reduce1_ok jsMax vs hne)
        (buildGroups l) (fun g hg => buildGroups_vals_ne_nil l g hg)
    · exact fun vs vs2 hp hne =>
        red1D_perm jsMax .negInf jsMax_negInf_left jsMax_right_comm vs vs2 hp hne
    · intro v; rfl
  · refine ⟨fun vs => vs.foldl jsAdd (.num 0), ?_, ?_, ?_⟩
    · intro l
      exact aggregateGroups_ok rfn meth (fun vs => vs.foldl jsAdd (.num 0)) hm
        (fun vs hne => by rw [hmm])
        (buildGroups l) (fun g hg => buildGroups_vals_ne_nil l g hg)
    · exact fun vs vs2 hp _ => foldl_jsAdd_perm vs vs2 hp
    · intro v
      simp [List.foldl_cons, jsAdd_zero_left]

theorem validateParams_freq_error (params : ResampleParams)
    (h : FREQUENCY_OPTION_METHOD_INDEX params.resampleFrequency = none) :
    validateParams params = .error .invalidFrequencyParam := by
  unfold validateParams
  have hc : (params.resampleFrequency.isNone ||
      (FREQUENCY_OPTION_METHOD_INDEX params.resampleFrequency).isNone) = true := by
    simp [h]
  rw [if_pos hc]

theorem validateParams_fn_error (params : ResampleParams)
    (h1 : (FREQUENCY_OPTION_METHOD_INDEX params.resampleFrequency).isSome = true)
    (h2 : FUNCTION_OPTION_METHOD_INDEX params.resampleFunction = none) :
    validateParams params = .error .invalidFunctionParam := by
  unfold validateParams
  have hf : params.resampleFrequency.isNone = false := by
    rcases hp : params.resampleFrequency with _ | s
    · rw [hp] at h1; simp [FREQUENCY_OPTION_METHOD_INDEX] at h1
    · rfl
  have he : (FREQUENCY_OPTION_METHOD_INDEX params.resampleFrequency).isNone = false := by
    rcases hx : FREQUENCY_OPTION_METHOD_INDEX params.resampleFrequency with _ | m
    · rw [hx] at h1; exact absurd h1 (by simp)
    · rfl
  have hc1 : (params.resampleFrequency.isNone ||
      (FREQUENCY_OPTION_METHOD_INDEX params.resampleFrequency).isNone) = false := by
    rw [hf, he]; rfl
  have hc2 : (params.resampleFunction.isNone ||
      (FUNCTION_OPTION_METHOD_INDEX params.resampleFunction).isNone) = true := by
    simp [h2]
  rw [hc1]
  simp only [Bool.false_eq_true, if_false]
  rw [if_pos hc2]

theorem FREQUENCY_index_none_of_unknown (s : String)
    (h : s ≠ "monthEnd" ∧ s ≠ "weekEnd" ∧ s ≠ "quarterEnd" ∧ s ≠ "yearEnd") :
    FREQUENCY_OPTION_METHOD_INDEX (some s) = none := by
  simp only [FREQUENCY_OPTION_METHOD_INDEX]
  rw [if_neg h.1, if_neg h.2.1, if_neg h.2.2.1, if_neg h.2.2.2]

theorem FUNCTION_index_none_of_unknown (s : String)
    (h : s ≠ "min" ∧ s ≠ "max" ∧ s ≠ "sum") :
    FUNCTION_OPTION_METHOD_INDEX (some s) = none := by
  simp only [FUNCTION_OPTION_METHOD_INDEX]
  rw [if_neg h.1, if_neg h.2.1, if_neg h.2.2]

/-! ## The claims -/

/-- C1: for the input series `[["2017-05-05", 22.5], ["2017-05-20", 10.0],
["2017-10-10", 44.5]]` with `resampleFrequency = monthEnd` and
`resampleFunction = sum`, the public resample operation succeeds and its
output is exactly the two pairs `["2017-05-31", 32.5]` and
`["2017-10-31", 44.5]`. -/
theorem resample_monthEnd_sum_example :
    resample
        [("2017-05-05", .num 22.5), ("2017-05-20", .num 10.0),
          ("2017-10-10", .num 44.5)]
        ⟨some "monthEnd", some "sum"⟩ =
      .ok [("2017-05-31", .num 32.5), ("2017-10-31", .num 44.5)] := by
  have hbase :
      resample
          [("2017-05-05", .num 22.5), ("2017-05-20", .num 10.0),
            ("2017-10-10", .num 44.5)]
          ⟨some "monthEnd", some "sum"⟩ =
        .ok [("2017-05-31", .num ((0 : ℚ) + 22.5 + 10.0)),
          ("2017-10-31", .num ((0 : ℚ) + 44.5))] := rfl
  have h1 : (0 : ℚ) + 22.5 + 10.0 = 32.5 := by norm_num
  have h2 : (0 : ℚ) + 44.5 = 44.5 := by norm_num
  rw [hbase, h1, h2]

/-- C10: for every pair of options that passes validation, resampling the
empty series succeeds and returns the empty sequence. -/
theorem resample_empty (params : ResampleParams)
    (hv : validateParams params = .ok ()) :
    resample [] params = .ok [] := by
  rw [resample_steps [] params [] [] hv rfl rfl]
  rfl

/-- Witness for C10 at concrete options. -/
theorem resample_empty_witness :
    resample [] ⟨some "monthEnd", some "min"⟩ = .ok [] :=
  resample_empty ⟨some "monthEnd", some "min"⟩ rfl

/-- C3: when `resampleFrequency` is absent or unrecognized the public
resample operation fails with the frequency `InvalidParameter` error, and
the result does not depend on the series at all (the failure happens
before any element is read); likewise, with a recognized frequency, an
absent or unrecognized `resampleFunction` fails with the function
`InvalidParameter` error, again for every series. -/
theorem invalid_params_short_circuit :
    (∀ (params : ResampleParams) (ts : List (String × JSNum)),
      (∀ s, params.resampleFrequency = some s →
        s ≠ "monthEnd" ∧ s ≠ "weekEnd" ∧ s ≠ "quarterEnd" ∧ s ≠ "yearEnd") →
      resample ts params = .error .invalidFrequencyParam) ∧
    (∀ (params : ResampleParams) (ts : List (String × JSNum)),
      (∃ s, params.resampleFrequency = some s ∧
        (s = "monthEnd" ∨ s = "weekEnd" ∨ s = "quarterEnd" ∨ s = "yearEnd")) →
      (∀ s, params.resampleFunction = some s →
        s ≠ "min" ∧ s ≠ "max" ∧ s ≠ "sum") →
      resample ts params = .error .invalidFunctionParam) := by
  constructor
  · intro params ts h
    apply resample_validate_error
    apply validateParams_freq_error
    rcases hp : params.resampleFrequency with _ | s
    · rfl
    · exact FREQUENCY_index_none_of_unknown s (h s hp)
  · intro params ts hfreq hfn
    apply resample_validate_error
    apply validateParams_fn_error
    · rcases hfreq with ⟨s, hps, hcases⟩
      rw [hps]
      rcases hcases with rfl | rfl | rfl | rfl <;> rfl
    · rcases hp : params.resampleFunction with _ | s
      · rfl
      · exact FUNCTION_index_none_of_unknown s (hfn s hp)

/-- Witness for C3: an unknown frequency and, separately, an unknown
function, on a series whose single entry is malformed in every way —
the errors are raised regardless. -/
theorem invalid_params_short_circuit_witness :
    resample [("garbage", .nan)] ⟨some "dayEnd", some "sum"⟩ =
        .error .invalidFrequencyParam ∧
      resample [("garbage", .nan)] ⟨some "monthEnd", some "median"⟩ =
        .error .invalidFunctionParam := by
  constructor
  · apply invalid_params_short_circuit.1
    intro s hs
    cases hs
    decide
  · apply invalid_params_short_circuit.2
    · exact ⟨"monthEnd", rfl, Or.inl rfl⟩
    · intro s hs
      cases hs
      decide

/-- C7: inserting an entry with an unparsable date text at any position
of an otherwise clean series makes the whole resample call fail with
`InvalidDate` carrying that text — whatever the position, whatever the
value, with no partial result. -/
theorem invalid_date_aborts (params : ResampleParams)
    (base : List (String × JSNum)) (cleaned : List (CalDate × JSNum))
    (i : Nat) (bad : String) (v : JSNum)
    (hv : validateParams params = .ok ())
    (hc : cleanTimeSeries base = .ok cleaned)
    (hbad : parse bad = none) :
    resample (base.take i ++ (bad, v) :: base.drop i) params =
      .error (.invalidDate bad) := by
  have hpre : cleanTimeSeries (base.take i) = .ok ((base.take i).map cleanElem) := by
    obtain ⟨hall, -⟩ := (cleanTimeSeries_ok_iff base cleaned).mp hc
    exact (cleanTimeSeries_ok_iff _ _).mpr
      ⟨fun x hx => hall x (List.take_subset i base hx), rfl⟩
  have hclean : cleanTimeSeries (base.take i ++ (bad, v) :: base.drop i) =
      .error (.invalidDate bad) := by
    rw [cleanTimeSeries_append _ _ _ hpre]
    simp only [cleanTimeSeries, hbad]
    rfl
  exact resample_clean_error _ params _ hv hclean

/-- Witness for C7: the malformed date `2017-13-40` inserted after a
well-formed entry aborts the call with `InvalidDate "2017-13-40"`. -/
theorem invalid_date_aborts_witness :
    resample
        ([("2017-05-05", JSNum.num 1)].take 1 ++
          ("2017-13-40", JSNum.num 5) :: [("2017-05-05", JSNum.num 1)].drop 1)
        ⟨some "monthEnd", some "sum"⟩ =
      .error (.invalidDate "2017-13-40") :=
  invalid_date_aborts ⟨some "monthEnd", some "sum"⟩
    [("2017-05-05", JSNum.num 1)] [(⟨2017, 5, 5⟩, JSNum.num 1)] 1
    "2017-13-40" (JSNum.num 5) rfl rfl rfl

/-- C8: when the normalizer succeeds its output has the same length as
the input and corresponds to it element by element, in order: the date of
the i-th output point is the parse of the i-th input text, and its value
is the i-th input value.  (Failure returns an `Except.error` with no
output list at all, so failure is all-or-nothing by construction.) -/
theorem cleanTimeSeries_preserves (ts : List (String × JSNum))
    (out : List (CalDate × JSNum)) (h : cleanTimeSeries ts = .ok out) :
    out.length = ts.length ∧
      ∀ (i : Nat) (h1 : i < ts.length) (h2 : i < out.length),
        parse (ts.get ⟨i, h1⟩).1 = some (out.get ⟨i, h2⟩).1 ∧
          (out.get ⟨i, h2⟩).2 = (ts.get ⟨i, h1⟩).2 := by
  obtain ⟨hall, ho⟩ := (cleanTimeSeries_ok_iff ts out).mp h
  subst ho
  refine ⟨List.length_map _ _, ?_⟩
  intro i h1 h2
  have hel : (ts.map cleanElem).get ⟨i, h2⟩ = cleanElem (ts.get ⟨i, h1⟩) := by
    simp [List.get_eq_getElem, List.getElem_map]
  rw [hel]
  obtain ⟨hp, hn⟩ := hall _ (ts.get_mem i h1)
  rcases hps : parse (ts.get ⟨i, h1⟩).1 with _ | d
  · rw [hps] at hp; cases hp
  · refine ⟨?_, rfl⟩
    rw [List.get_eq_getElem] at hps
    simp [cleanElem, hps]

/-- Witness for C8 at a concrete two-entry series. -/
theorem cleanTimeSeries_preserves_witness :
    ([((⟨2017, 5, 5⟩ : CalDate), JSNum.num 7),
        ((⟨2017, 10, 10⟩ : CalDate), JSNum.posInf)].length =
      [("2017-05-05", JSNum.num 7), ("2017-10-10", JSNum.posInf)].length) ∧
      ∀ (i : Nat)
        (h1 : i < [("2017-05-05", JSNum.num 7),
          ("2017-10-10", JSNum.posInf)].length)
        (h2 : i < [((⟨2017, 5, 5⟩ : CalDate), JSNum.num 7),
          ((⟨2017, 10, 10⟩ : CalDate), JSNum.posInf)].length),
        parse ([("2017-05-05", JSNum.num 7),
            ("2017-10-10", JSNum.posInf)].get ⟨i, h1⟩).1 =
          some (([((⟨2017, 5, 5⟩ : CalDate), JSNum.num 7),
            ((⟨2017, 10, 10⟩ : CalDate), JSNum.posInf)].get ⟨i, h2⟩).1) ∧
        (([((⟨2017, 5, 5⟩ : CalDate), JSNum.num 7),
            ((⟨2017, 10, 10⟩ : CalDate), JSNum.posInf)].get ⟨i, h2⟩).2 =
          ([("2017-05-05", JSNum.num 7),
            ("2017-10-10", JSNum.posInf)].get ⟨i, h1⟩).2) :=
  cleanTimeSeries_preserves
    [("2017-05-05", JSNum.num 7), ("2017-10-10", JSNum.posInf)]
    [(⟨2017, 5, 5⟩, JSNum.num 7), (⟨2017, 10, 10⟩, JSNum.posInf)] rfl

/-- Counterexample to C4: the normalizer succeeds on an `Infinity` value
and emits it unchanged, although `Infinity` does not coerce to a finite
number — so the produced point's value is neither coerced-and-finite nor
does the call fail with `InvalidValue`. -/
theorem normalizer_infinity_counterexample :
    cleanTimeSeries [("2017-05-05", JSNum.posInf)] =
        .ok [(⟨2017, 5, 5⟩, JSNum.posInf)] ∧
      JSNum.posInf.isFinite = false :=
  ⟨rfl, rfl⟩

/-- C4 (amended): every point the normalizer produces carries a value on
which JavaScript `isNaN` is false — the value itself is passed through
unchanged, not coerced, and `±Infinity` is accepted; and whenever an
entry whose date parses carries a NaN value, the normalizer fails with
`InvalidValue` carrying that original value. -/
theorem normalizer_rejects_nan_only :
    (∀ (ts : List (String × JSNum)) (out : List (CalDate × JSNum)),
      cleanTimeSeries ts = .ok out →
        (∀ p ∈ out, jsIsNaN p.2 = false) ∧
          out.map Prod.snd = ts.map Prod.snd) ∧
    (∀ (pre : List (String × JSNum)) (pre2 : List (CalDate × JSNum))
        (s : String) (d : CalDate) (v : JSNum) (post : List (String × JSNum)),
      cleanTimeSeries pre = .ok pre2 → parse s = some d → jsIsNaN v = true →
        cleanTimeSeries (pre ++ (s, v) :: post) =
          .error (.invalidValue v)) := by
  constructor
  · intro ts out h
    obtain ⟨hall, ho⟩ := (cleanTimeSeries_ok_iff ts out).mp h
    subst ho
    constructor
    · intro p hp
      rcases List.mem_map.mp hp with ⟨x, hx, rfl⟩
      exact (hall x hx).2
    · rw [List.map_map]
      rfl
  · intro pre pre2 s d v post hpre hs hv
    rw [cleanTimeSeries_append pre pre2 _ hpre]
    simp only [cleanTimeSeries, hs, hv, if_true]
    rfl

/-- Witness for C4 (amended): a clean series yields non-NaN values
passed through verbatim, and a NaN value after a clean prefix raises
`InvalidValue NaN`. -/
theorem normalizer_rejects_nan_only_witness :
    ((∀ p ∈ ([((⟨2017, 5, 5⟩ : CalDate), JSNum.num 7)] :
          List (CalDate × JSNum)), jsIsNaN p.2 = false) ∧
        ([((⟨2017, 5, 5⟩ : CalDate), JSNum.num 7)] :
          List (CalDate × JSNum)).map Prod.snd =
          [("2017-05-05", JSNum.num 7)].map Prod.snd) ∧
      cleanTimeSeries
          ([("2017-05-05", JSNum.num 7)] ++ ("2017-05-06", JSNum.nan) :: []) =
        .error (.invalidValue .nan) :=
  ⟨normalizer_rejects_nan_only.1 [("2017-05-05", JSNum.num 7)]
      [(⟨2017, 5, 5⟩, JSNum.num 7)] rfl,
    normalizer_rejects_nan_only.2 [("2017-05-05", JSNum.num 7)]
      [(⟨2017, 5, 5⟩, JSNum.num 7)] "2017-05-06" ⟨2017, 5, 6⟩ .nan [] rfl rfl rfl⟩

/-- C2: for valid options and a valid series of length `n` whose points
resolve to `k` distinct period keys, the resample output has length
exactly `k`, and `k ≤ n`. -/
theorem resample_output_length (params : ResampleParams)
    (ts : List (String × JSNum)) (cleaned : List (CalDate × JSNum))
    (mapped : List (String × JSNum))
    (hv : validateParams params = .ok ())
    (hc : cleanTimeSeries ts = .ok cleaned)
    (hf : applyFrequency params.resampleFrequency cleaned = .ok mapped) :
    ∃ out, resample ts params = .ok out ∧
      out.length = (mapped.map Prod.fst).toFinset.card ∧
      (mapped.map Prod.fst).toFinset.card ≤ ts.length := by
  obtain ⟨hfreq, hfn⟩ := validateParams_ok params hv
  rcases hmz : FUNCTION_OPTION_METHOD_INDEX params.resampleFunction with _ | meth
  · rw [hmz] at hfn; cases hfn
  obtain ⟨methD, houtall, -, -⟩ := applyFunction_ok_of_valid _ meth hmz
  refine ⟨(buildGroups mapped).map (fun g => (g.1, methD g.2)), ?_, ?_, ?_⟩
  · rw [resample_steps ts params cleaned mapped hv hc hf]
    exact houtall mapped
  · rw [List.length_map, buildGroups_length]
  · rcases hfz : FREQUENCY_OPTION_METHOD_INDEX params.resampleFrequency with _ | mf
    · rw [hfz] at hfreq; cases hfreq
    have hmap := applyFrequency_ok _ mf hfz cleaned
    rw [hmap] at hf
    have hmeq : cleaned.map (fun p => (formatDate (mf p.1), p.2)) = mapped :=
      Except.ok.inj hf
    obtain ⟨-, hcl⟩ := (cleanTimeSeries_ok_iff ts cleaned).mp hc
    calc (mapped.map Prod.fst).toFinset.card
        ≤ (mapped.map Prod.fst).length := List.toFinset_card_le _
      _ = mapped.length := List.length_map _ _
      _ = cleaned.length := by rw [← hmeq, List.length_map]
      _ = ts.length := by rw [hcl, List.length_map]

/-- Witness for C2 at a concrete two-entry series with two distinct
resolved periods. -/
theorem resample_output_length_witness :
    ∃ out,
      resample [("2017-01-05", JSNum.num 1), ("2017-02-06", JSNum.num 2)]
          ⟨some "monthEnd", some "min"⟩ = .ok out ∧
        out.length =
          (([("2017-01-31", JSNum.num 1),
            ("2017-02-28", JSNum.num 2)].map Prod.fst).toFinset.card) ∧
        (([("2017-01-31", JSNum.num 1),
          ("2017-02-28", JSNum.num 2)].map Prod.fst).toFinset.card) ≤
          [("2017-01-05", JSNum.num 1), ("2017-02-06", JSNum.num 2)].length :=
  resample_output_length ⟨some "monthEnd", some "min"⟩
    [("2017-01-05", JSNum.num 1), ("2017-02-06", JSNum.num 2)]
    [(⟨2017, 1, 5⟩, JSNum.num 1), (⟨2017, 2, 6⟩, JSNum.num 2)]
    [("2017-01-31", JSNum.num 1), ("2017-02-28", JSNum.num 2)]
    rfl rfl rfl

/-- C9: in any resample invocation that reaches the aggregation pass,
every group built by the group-and-reduce pass is non-empty, so the
empty-reduce TypeError of `min`/`max` is unreachable and the whole call
succeeds. -/
theorem groups_nonempty (params : ResampleParams)
    (ts : List (String × JSNum)) (cleaned : List (CalDate × JSNum))
    (mapped : List (String × JSNum))
    (hv : validateParams params = .ok ())
    (hc : cleanTimeSeries ts = .ok cleaned)
    (hf : applyFrequency params.resampleFrequency cleaned = .ok mapped) :
    (∀ g ∈ buildGroups mapped, g.2 ≠ []) ∧
      ∃ out, resample ts params = .ok out := by
  refine ⟨fun g hg => buildGroups_vals_ne_nil mapped g hg, ?_⟩
  obtain ⟨hfreq, hfn⟩ := validateParams_ok params hv
  rcases hmz : FUNCTION_OPTION_METHOD_INDEX params.resampleFunction with _ | meth
  · rw [hmz] at hfn; cases hfn
  obtain ⟨methD, houtall, -, -⟩ := applyFunction_ok_of_valid _ meth hmz
  refine ⟨(buildGroups mapped).map (fun g => (g.1, methD g.2)), ?_⟩
  rw [resample_steps ts params cleaned mapped hv hc hf]
  exact houtall mapped

/-- Witness for C9: two entries collapsing into one quarter group. -/
theorem groups_nonempty_witness :
    (∀ g ∈ buildGroups [("2017-03-31", JSNum.num 1),
        ("2017-03-31", JSNum.num 2)], g.2 ≠ []) ∧
      ∃ out,
        resample [("2017-03-05", JSNum.num 1), ("2017-03-20", JSNum.num 2)]
          ⟨some "quarterEnd", some "max"⟩ = .ok out :=
  groups_nonempty ⟨some "quarterEnd", some "max"⟩
    [("2017-03-05", JSNum.num 1), ("2017-03-20", JSNum.num 2)]
    [(⟨2017, 3, 5⟩, JSNum.num 1), (⟨2017, 3, 20⟩, JSNum.num 2)]
    [("2017-03-31", JSNum.num 1), ("2017-03-31", JSNum.num 2)]
    rfl rfl rfl

/-- C6: for valid options, resampling a single-point series yields a
single output pair whose aggregated value is exactly the input value,
whichever aggregation function was chosen. -/
theorem resample_singleton (params : ResampleParams) (s : String) (d : CalDate)
    (v : JSNum) (hv : validateParams params = .ok ())
    (hp : parse s = some d) (hn : jsIsNaN v = false) :
    ∃ k, resample [(s, v)] params = .ok [(k, v)] := by
  obtain ⟨hfreq, hfn⟩ := validateParams_ok params hv
  rcases hfz : FREQUENCY_OPTION_METHOD_INDEX params.resampleFrequency with _ | mf
  · rw [hfz] at hfreq; cases hfreq
  rcases hmz : FUNCTION_OPTION_METHOD_INDEX params.resampleFunction with _ | meth
  · rw [hmz] at hfn; cases hfn
  have hc : cleanTimeSeries [(s, v)] = .ok [(d, v)] := by
    simp only [cleanTimeSeries, hp, hn, Bool.false_eq_true, if_false,
      except_bind_ok]
  have hfr : applyFrequency params.resampleFrequency [(d, v)] =
      .ok [(formatDate (mf d), v)] := by
    have h := applyFrequency_ok _ mf hfz [(d, v)]
    simpa using h
  obtain ⟨methD, houtall, -, hsingle⟩ := applyFunction_ok_of_valid _ meth hmz
  refine ⟨formatDate (mf d), ?_⟩
  rw [resample_steps _ params [(d, v)] [(formatDate (mf d), v)] hv hc hfr]
  rw [houtall]
  have hbg : buildGroups [(formatDate (mf d), v)] =
      [(formatDate (mf d), [v])] := rfl
  rw [hbg]
  simp [hsingle]

/-- Witness for C6 at the options `yearEnd`/`sum`. -/
theorem resample_singleton_witness :
    ∃ k, resample [("2017-05-05", JSNum.num 3)] ⟨some "yearEnd", some "sum"⟩ =
      .ok [(k, JSNum.num 3)] :=
  resample_singleton ⟨some "yearEnd", some "sum"⟩ "2017-05-05" ⟨2017, 5, 5⟩
    (JSNum.num 3) rfl rfl rfl

/-! ## Binary64 rounding facts -/

theorem int_log_pin (r : ℚ) (e : ℤ) (hr : 0 < r)
    (h1 : (2 : ℚ) ^ e ≤ r) (h2 : r < (2 : ℚ) ^ (e + 1)) : Int.log 2 r = e := by
  have hb : 1 < (2 : ℕ) := one_lt_two
  have hle : e ≤ Int.log 2 r := by
    rw [← Int.zpow_le_iff_le_log hb hr]
    exact_mod_cast h1
  have hge : Int.log 2 r ≤ e := by
    by_contra hcon
    push_neg at hcon
    have h3 : e + 1 ≤ Int.log 2 r := hcon
    rw [← Int.zpow_le_iff_le_log hb hr] at h3
    have h4 : (2 : ℚ) ^ (e + 1) ≤ r := by exact_mod_cast h3
    exact absurd h2 (not_lt.mpr h4)
  exact le_antisymm hge hle

theorem roundDouble_eq_of (q : ℚ) (e n : ℤ) (hq : 0 < q)
    (h1 : (2 : ℚ) ^ e ≤ q) (h2 : q < (2 : ℚ) ^ (e + 1)) (he : (-1022 : ℤ) ≤ e)
    (hn1 : (n : ℚ) ≤ q / (2 : ℚ) ^ (e - 52))
    (hn2 : q / (2 : ℚ) ^ (e - 52) < (n : ℚ) + 1 / 2) :
    roundDouble q = (2 : ℚ) ^ (e - 52) * (n : ℚ) := by
  have habs : |q| = q := abs_of_pos hq
  have hlog : Int.log 2 |q| = e := by rw [habs]; exact int_log_pin q e hq h1 h2
  have hde : dExp q = e := by
    unfold dExp
    rw [hlog]
    exact max_eq_left he
  have hfl : ⌊q / (2 : ℚ) ^ (e - 52)⌋ = n := by
    rw [Int.floor_eq_iff]
    exact ⟨hn1, lt_trans hn2 (by linarith)⟩
  have hrne : roundNearestEven (q / (2 : ℚ) ^ (e - 52)) = n := by
    unfold roundNearestEven
    rw [hfl, if_pos (by linarith)]
  rw [roundDouble, if_neg (ne_of_gt hq), hde, hrne]

theorem roundDouble_1e17 : roundDouble ((10 : ℚ) ^ 17) = 10 ^ 17 := by
  have h := roundDouble_eq_of ((10 : ℚ) ^ 17) 56 6250000000000000
    (by norm_num) (by norm_num) (by norm_num) (by norm_num) (by norm_num)
    (by norm_num)
  rw [h]
  norm_num

theorem roundDouble_1e17_add_one :
    roundDouble ((10 : ℚ) ^ 17 + 1) = 10 ^ 17 := by
  have h := roundDouble_eq_of ((10 : ℚ) ^ 17 + 1) 56 6250000000000000
    (by norm_num) (by norm_num) (by norm_num) (by norm_num) (by norm_num)
    (by norm_num)
  rw [h]
  norm_num

theorem roundDouble_one : roundDouble (1 : ℚ) = 1 := by
  have h := roundDouble_eq_of (1 : ℚ) 0 4503599627370496
    (by norm_num) (by norm_num) (by norm_num) (by norm_num) (by norm_num)
    (by norm_num)
  rw [h]
  norm_num

theorem roundDouble_zero : roundDouble (0 : ℚ) = 0 := by
  rw [roundDouble, if_pos rfl]

theorem doubleOf_eval (q r : ℚ) (h : roundDouble q = r)
    (hlt : |r| < (2 : ℚ) ^ (1024 : ℤ)) : doubleOf q = .num r := by
  unfold doubleOf
  rw [h, if_neg (not_le.mpr hlt)]

theorem jsAddDouble_zero_1e17 :
    jsAddDouble (.num 0) (.num ((10 : ℚ) ^ 17)) = .num ((10 : ℚ) ^ 17) := by
  show doubleOf ((0 : ℚ) + (10 : ℚ) ^ 17) = .num ((10 : ℚ) ^ 17)
  rw [show (0 : ℚ) + (10 : ℚ) ^ 17 = (10 : ℚ) ^ 17 from by norm_num]
  exact doubleOf_eval _ _ roundDouble_1e17 (by rw [abs_of_pos] <;> norm_num)

theorem jsAddDouble_1e17_one :
    jsAddDouble (.num ((10 : ℚ) ^ 17)) (.num 1) = .num ((10 : ℚ) ^ 17) := by
  show doubleOf ((10 : ℚ) ^ 17 + 1) = .num ((10 : ℚ) ^ 17)
  exact doubleOf_eval _ _ roundDouble_1e17_add_one
    (by rw [abs_of_pos] <;> norm_num)

theorem jsAddDouble_1e17_cancel :
    jsAddDouble (.num ((10 : ℚ) ^ 17)) (.num (-((10 : ℚ) ^ 17))) = .num 0 := by
  show doubleOf ((10 : ℚ) ^ 17 + -((10 : ℚ) ^ 17)) = .num 0
  rw [show (10 : ℚ) ^ 17 + -((10 : ℚ) ^ 17) = 0 from by norm_num]
  exact doubleOf_eval _ _ roundDouble_zero (by rw [abs_zero]; norm_num)

theorem jsAddDouble_zero_one : jsAddDouble (.num 0) (.num 1) = .num 1 := by
  show doubleOf ((0 : ℚ) + 1) = .num 1
  rw [show (0 : ℚ) + 1 = 1 from by norm_num]
  exact doubleOf_eval _ _ roundDouble_one (by rw [abs_of_pos] <;> norm_num)

/-- Counterexample to C5: with `monthEnd`/`sum` on the one-month series
`[1e17, 1, -1e17]` (all three values exact binary64 doubles), the
program — whose `+` rounds each partial sum to a double — returns the
pair set containing `("2017-01-31", 0)`, because `1e17 + 1` rounds back
to `1e17`; on the permutation `[1e17, -1e17, 1]` it returns
`("2017-01-31", 1)`.  The two outputs differ as sets, so permuting the
input changes the result for `sum`. -/
theorem resample_sum_order_counterexample :
    ([("2017-01-05", JSNum.num ((10 : ℚ) ^ 17)),
        ("2017-01-20", JSNum.num (-((10 : ℚ) ^ 17))),
        ("2017-01-10", JSNum.num 1)] : List (String × JSNum)).Perm
      [("2017-01-05", JSNum.num ((10 : ℚ) ^ 17)),
        ("2017-01-10", JSNum.num 1),
        ("2017-01-20", JSNum.num (-((10 : ℚ) ^ 17)))] ∧
    resampleDouble
        [("2017-01-05", JSNum.num ((10 : ℚ) ^ 17)),
          ("2017-01-10", JSNum.num 1),
          ("2017-01-20", JSNum.num (-((10 : ℚ) ^ 17)))]
        ⟨some "monthEnd", some "sum"⟩ =
      .ok [("2017-01-31", JSNum.num 0)] ∧
    resampleDouble
        [("2017-01-05", JSNum.num ((10 : ℚ) ^ 17)),
          ("2017-01-20", JSNum.num (-((10 : ℚ) ^ 17))),
          ("2017-01-10", JSNum.num 1)]
        ⟨some "monthEnd", some "sum"⟩ =
      .ok [("2017-01-31", JSNum.num 1)] ∧
    ([("2017-01-31", JSNum.num 0)] : List (String × JSNum)).toFinset ≠
      ([("2017-01-31", JSNum.num 1)] : List (String × JSNum)).toFinset := by
  refine ⟨List.Perm.cons _ (List.Perm.swap _ _ _), ?_, ?_, ?_⟩
  · have hbase :
        resampleDouble
            [("2017-01-05", JSNum.num ((10 : ℚ) ^ 17)),
              ("2017-01-10", JSNum.num 1),
              ("2017-01-20", JSNum.num (-((10 : ℚ) ^ 17)))]
            ⟨some "monthEnd", some "sum"⟩ =
          .ok [("2017-01-31",
            List.foldl jsAddDouble (JSNum.num 0)
              [JSNum.num ((10 : ℚ) ^ 17), JSNum.num 1,
                JSNum.num (-((10 : ℚ) ^ 17))])] := rfl
    have hfold :
        List.foldl jsAddDouble (JSNum.num 0)
            [JSNum.num ((10 : ℚ) ^ 17), JSNum.num 1,
              JSNum.num (-((10 : ℚ) ^ 17))] = JSNum.num 0 := by
      rw [List.foldl_cons, jsAddDouble_zero_1e17, List.foldl_cons,
        jsAddDouble_1e17_one, List.foldl_cons, jsAddDouble_1e17_cancel,
        List.foldl_nil]
    rw [hbase, hfold]
  · have hbase :
        resampleDouble
            [("2017-01-05", JSNum.num ((10 : ℚ) ^ 17)),
              ("2017-01-20", JSNum.num (-((10 : ℚ) ^ 17))),
              ("2017-01-10", JSNum.num 1)]
            ⟨some "monthEnd", some "sum"⟩ =
          .ok [("2017-01-31",
            List.foldl jsAddDouble (JSNum.num 0)
              [JSNum.num ((10 : ℚ) ^ 17), JSNum.num (-((10 : ℚ) ^ 17)),
                JSNum.num 1])] := rfl
    have hfold :
        List.foldl jsAddDouble (JSNum.num 0)
            [JSNum.num ((10 : ℚ) ^ 17), JSNum.num (-((10 : ℚ) ^ 17)),
              JSNum.num 1] = JSNum.num 1 := by
      rw [List.foldl_cons, jsAddDouble_zero_1e17, List.foldl_cons,
        jsAddDouble_1e17_cancel, List.foldl_cons, jsAddDouble_zero_one,
        List.foldl_nil]
    rw [hbase, hfold]
  · intro h
    have hmem : (("2017-01-31", JSNum.num 0) : String × JSNum) ∈
        ([("2017-01-31", JSNum.num 1)] : List (String × JSNum)).toFinset := by
      rw [← h]
      simp
    rw [List.mem_toFinset, List.mem_singleton] at hmem
    have h2 : JSNum.num 0 = JSNum.num 1 := congrArg Prod.snd hmem
    have h01 : (0 : ℚ) = 1 := by injection h2
    norm_num at h01

/-- C5 (amended): for valid options whose aggregation function is `min`
or `max` — the two reducers that return one of their arguments exactly,
also in binary64 arithmetic — resampling any permutation of a valid
series yields the same set of (period key, aggregated value) pairs.  For
`sum` the program's IEEE-754 addition rounds every partial sum, so the
aggregated value can depend on the input order
(`resample_sum_order_counterexample`). -/
theorem resample_perm_invariant_minmax (params : ResampleParams)
    (ts ts2 : List (String × JSNum)) (cleaned : List (CalDate × JSNum))
    (hv : validateParams params = .ok ())
    (hfn : params.resampleFunction = some "min" ∨
      params.resampleFunction = some "max")
    (hperm : ts2.Perm ts)
    (hc : cleanTimeSeries ts = .ok cleaned) :
    ∃ out out2,
      resample ts params = .ok out ∧ resample ts2 params = .ok out2 ∧
        out.toFinset = out2.toFinset := by
  obtain ⟨hfreq, -⟩ := validateParams_ok params hv
  rcases hfz : FREQUENCY_OPTION_METHOD_INDEX params.resampleFrequency with _ | mf
  · rw [hfz] at hfreq; cases hfreq
  obtain ⟨meth, hmz⟩ :
      ∃ meth, FUNCTION_OPTION_METHOD_INDEX params.resampleFunction =
        some meth := by
    rcases hfn with h | h <;> rw [h] <;> exact ⟨_, rfl⟩
  obtain ⟨hall, hcl⟩ := (cleanTimeSeries_ok_iff ts cleaned).mp hc
  have hc2 : cleanTimeSeries ts2 = .ok (ts2.map cleanElem) :=
    (cleanTimeSeries_ok_iff _ _).mpr
      ⟨fun x hx => hall x (hperm.subset hx), rfl⟩
  have hf1 := applyFrequency_ok _ mf hfz cleaned
  have hf2 := applyFrequency_ok _ mf hfz (ts2.map cleanElem)
  obtain ⟨methD, houtall, hinv, -⟩ := applyFunction_ok_of_valid _ meth hmz
  have hmperm :
      ((ts2.map cleanElem).map (fun p => (formatDate (mf p.1), p.2))).Perm
        (cleaned.map (fun p => (formatDate (mf p.1), p.2))) := by
    rw [hcl]
    exact (hperm.map cleanElem).map _
  refine ⟨(buildGroups (cleaned.map
        (fun p => (formatDate (mf p.1), p.2)))).map (fun g => (g.1, methD g.2)),
      (buildGroups ((ts2.map cleanElem).map
        (fun p => (formatDate (mf p.1), p.2)))).map (fun g => (g.1, methD g.2)),
      ?_, ?_, ?_⟩
  · rw [resample_steps ts params cleaned _ hv hc hf1]
    exact houtall _
  · rw [resample_steps ts2 params (ts2.map cleanElem) _ hv hc2 hf2]
    exact houtall _
  · exact (out_toFinset_eq _ _ hmperm methD hinv).symm

/-- Witness for C5 (amended): swapping the two entries of a series
aggregated with `min`. -/
theorem resample_perm_invariant_minmax_witness :
    ∃ out out2,
      resample [("2017-01-05", JSNum.num 1), ("2017-01-20", JSNum.num 2)]
          ⟨some "monthEnd", some "min"⟩ = .ok out ∧
        resample [("2017-01-20", JSNum.num 2), ("2017-01-05", JSNum.num 1)]
          ⟨some "monthEnd", some "min"⟩ = .ok out2 ∧
        out.toFinset = out2.toFinset :=
  resample_perm_invariant_minmax ⟨some "monthEnd", some "min"⟩
    [("2017-01-05", JSNum.num 1), ("2017-01-20", JSNum.num 2)]
    [("2017-01-20", JSNum.num 2), ("2017-01-05", JSNum.num 1)]
    [(⟨2017, 1, 5⟩, JSNum.num 1), (⟨2017, 1, 20⟩, JSNum.num 2)]
    rfl (Or.inl rfl) (List.Perm.swap _ _ _) rfl
